import Mathlib

/-!
Verification of the PulseCheck node runtime against its specification.

The definitions below are a shallow embedding of the Go sources:
* `internal/protocol` (30-octet heartbeat frame with CRC-32/IEEE trailer,
  the revision whose test suite references `PacketDataSize`);
* `internal/telemetry` (severity classifier `CalculateStatus`);
* `internal/registry` (sharded peer monitor, the revision whose test suite
  references `numShards`, with its reaper).

Bytes are modelled as `Nat` (with `< 256` bounds where the Go types impose
them), machine integers as `Nat`/`Int` with explicit reductions mod `2^w`,
and the wall clock as an explicit `Int` parameter standing for the value
`time.Now()` returns at the call.
-/

namespace PulseCheck

/-! ## Big-endian byte order (binary.BigEndian) -/

/-- Layout `beBytes n x`: the `n`-byte big-endian form of `x` (least byte last),
as written by `binary.BigEndian.PutUint64` / `PutUint32` for `x < 256^n`. -/
def beBytes : Nat → Nat → List Nat
  | 0, _ => []
  | n + 1, x => beBytes n (x / 256) ++ [x % 256]

/-- Big-endian read of a byte list, as `binary.BigEndian.Uint64` / `Uint32`. -/
def readBE (l : List Nat) : Nat :=
  l.foldl (fun a b => a * 256 + b) 0

theorem length_beBytes (n x : Nat) : (beBytes n x).length = n := by
  induction n generalizing x with
  | zero => rfl
  | succ n ih => simp [beBytes, ih]

theorem readBE_append_singleton (l : List Nat) (b : Nat) :
    readBE (l ++ [b]) = readBE l * 256 + b := by
  simp [readBE, List.foldl_append]

theorem readBE_beBytes (n x : Nat) (h : x < 256 ^ n) : readBE (beBytes n x) = x := by
  induction n generalizing x with
  | zero =>
    simp only [beBytes, readBE, List.foldl_nil]
    omega
  | succ n ih =>
    rw [beBytes, readBE_append_singleton, ih (x / 256) (by
      have : 256 ^ (n + 1) = 256 ^ n * 256 := by ring
      omega)]
    omega

theorem beBytes_lt (n x : Nat) : ∀ b ∈ beBytes n x, b < 256 := by
  induction n generalizing x with
  | zero => simp [beBytes]
  | succ n ih =>
    intro b hb
    simp only [beBytes, List.mem_append, List.mem_singleton] at hb
    rcases hb with hb | hb
    · exact ih _ b hb
    · omega

/-! ## Signed/unsigned 64-bit conversions -/

/-- Go's `uint64(x)` on an `int64` value: the representative of `x` mod `2^64`. -/
def toUInt64 (x : Int) : Nat := (x % (2 ^ 64 : Int)).toNat

/-- Go's `int64(u)` on a `uint64` value: two's-complement reinterpretation. -/
def ofUInt64 (u : Nat) : Int :=
  if u < 2 ^ 63 then (u : Int) else (u : Int) - 2 ^ 64

theorem toUInt64_lt (x : Int) : toUInt64 x < 2 ^ 64 := by
  unfold toUInt64
  omega

theorem ofUInt64_toUInt64 (x : Int) (h₁ : -(2 ^ 63) ≤ x) (h₂ : x < 2 ^ 63) :
    ofUInt64 (toUInt64 x) = x := by
  unfold ofUInt64 toUInt64
  split <;> omega

/-! ## CRC-32/IEEE (hash/crc32 `ChecksumIEEE`)

Bitwise model of the reflected CRC-32 with polynomial `0xEDB88320`,
initial value `0xFFFFFFFF` and final complement: exactly the function the
Go standard library's table implements. -/

/-- One bit round of the reflected CRC-32. -/
def crcBit (c : Nat) : Nat :=
  (c >>> 1) ^^^ (if c &&& 1 = 1 then 0xEDB88320 else 0)

/-- Iterated bit rounds. -/
def crcBits : Nat → Nat → Nat
  | 0, c => c
  | n + 1, c => crcBits n (crcBit c)

/-- Absorb one byte: xor it into the register, then run eight bit rounds. -/
def crcByte (c b : Nat) : Nat := crcBits 8 (c ^^^ b)

/-- Absorb a byte list starting from register value `c`. -/
def crcLoop (c : Nat) (l : List Nat) : Nat := l.foldl crcByte c

/-- Model of `crc32.ChecksumIEEE`. -/
def crc32 (l : List Nat) : Nat := crcLoop 0xFFFFFFFF l ^^^ 0xFFFFFFFF

theorem shiftRight_xor (a b n : Nat) : (a ^^^ b) >>> n = a >>> n ^^^ b >>> n := by
  apply Nat.eq_of_testBit_eq
  intro i
  simp [Nat.testBit_shiftRight, Nat.testBit_xor]

theorem xor_left_comm (a b c : Nat) : a ^^^ (b ^^^ c) = b ^^^ (a ^^^ c) := by
  rw [← Nat.xor_assoc, Nat.xor_comm a b, Nat.xor_assoc]

/-- The CRC bit round is linear over GF(2). -/
theorem crcBit_xor (a b : Nat) : crcBit (a ^^^ b) = crcBit a ^^^ crcBit b := by
  have hab : (a ^^^ b) &&& 1 = (a &&& 1) ^^^ (b &&& 1) := Nat.and_xor_distrib_right
  have ha : a &&& 1 = 0 ∨ a &&& 1 = 1 := by
    rw [Nat.and_one_is_mod]; exact Nat.mod_two_eq_zero_or_one a
  have hb : b &&& 1 = 0 ∨ b &&& 1 = 1 := by
    rw [Nat.and_one_is_mod]; exact Nat.mod_two_eq_zero_or_one b
  unfold crcBit
  rcases ha with ha | ha <;> rcases hb with hb | hb <;>
    simp only [hab, ha, hb, shiftRight_xor] <;> norm_num <;>
      simp [Nat.xor_assoc, Nat.xor_comm, xor_left_comm, Nat.xor_cancel_left,
        Nat.xor_self, Nat.xor_zero, Nat.zero_xor]

theorem crcBits_xor (n a b : Nat) : crcBits n (a ^^^ b) = crcBits n a ^^^ crcBits n b := by
  induction n generalizing a b with
  | zero => rfl
  | succ n ih => rw [crcBits, crcBit_xor, ih]; rfl

theorem crcByte_xor (c₁ c₂ b₁ b₂ : Nat) :
    crcByte (c₁ ^^^ c₂) (b₁ ^^^ b₂) = crcByte c₁ b₁ ^^^ crcByte c₂ b₂ := by
  unfold crcByte
  rw [← crcBits_xor]
  congr 1
  simp [Nat.xor_assoc, Nat.xor_comm, xor_left_comm]

/-- The CRC register update is linear over GF(2), bytewise. -/
theorem crcLoop_xor (l₁ l₂ : List Nat) (c₁ c₂ : Nat) (h : l₁.length = l₂.length) :
    crcLoop (c₁ ^^^ c₂) (List.zipWith (· ^^^ ·) l₁ l₂) = crcLoop c₁ l₁ ^^^ crcLoop c₂ l₂ := by
  induction l₁ generalizing l₂ c₁ c₂ with
  | nil =>
    have : l₂ = [] := by cases l₂ <;> simp_all
    subst this; rfl
  | cons a l₁ ih =>
    cases l₂ with
    | nil => simp at h
    | cons b l₂ =>
      simp only [List.zipWith_cons_cons, crcLoop, List.foldl_cons]
      rw [show crcByte (c₁ ^^^ c₂) (a ^^^ b) = crcByte c₁ a ^^^ crcByte c₂ b from crcByte_xor ..]
      exact ih l₂ _ _ (by simpa using h)

theorem crcBit_lt (c : Nat) (h : c < 2 ^ 32) : crcBit c < 2 ^ 32 := by
  unfold crcBit
  have h1 : c >>> 1 < 2 ^ 32 := by
    have : c >>> 1 ≤ c := by simp [Nat.shiftRight_succ, Nat.shiftRight_zero]; omega
    omega
  apply Nat.xor_lt_two_pow h1
  split <;> norm_num

theorem crcBits_lt (n c : Nat) (h : c < 2 ^ 32) : crcBits n c < 2 ^ 32 := by
  induction n generalizing c with
  | zero => exact h
  | succ n ih => exact ih _ (crcBit_lt c h)

theorem crcByte_lt (c b : Nat) (hc : c < 2 ^ 32) (hb : b < 256) : crcByte c b < 2 ^ 32 :=
  crcBits_lt 8 _ (Nat.xor_lt_two_pow hc (by omega))

theorem crcLoop_lt (l : List Nat) (c : Nat) (hc : c < 2 ^ 32) (hl : ∀ b ∈ l, b < 256) :
    crcLoop c l < 2 ^ 32 := by
  induction l generalizing c with
  | nil => exact hc
  | cons b l ih =>
    exact ih _ (crcByte_lt c b hc (hl b (by simp))) (fun x hx => hl x (by simp [hx]))

theorem crc32_lt (l : List Nat) (hl : ∀ b ∈ l, b < 256) : crc32 l < 2 ^ 32 :=
  Nat.xor_lt_two_pow (crcLoop_lt l _ (by norm_num) hl) (by norm_num)

/-! ## Frame codec (internal/protocol)

`PacketSize = 30` octets: 26 data octets (version, 16-octet node id,
big-endian signed 64-bit timestamp, status code) followed by the 4-octet
big-endian CRC-32/IEEE of the data octets. -/

def PacketSize : Nat := 30
def PacketDataSize : Nat := 26
def Version : Nat := 1

structure Packet where
  version : Nat
  nodeUUID : List Nat
  timestamp : Int
  statusCode : Nat
  checksum : Nat
  deriving DecidableEq, Repr

/-- The 26 data octets of a frame: version at offset 0, node id at 1..16,
big-endian unsigned reinterpretation of the timestamp at 17..24, status code
at 25. -/
def Packet.encodeData (p : Packet) : List Nat :=
  [p.version] ++ p.nodeUUID ++ beBytes 8 (toUInt64 p.timestamp) ++ [p.statusCode]

/-- Model of `Packet.Encode`: the 26 data octets followed by the big-endian
CRC-32/IEEE of those octets (offsets 26..29). The Go method always returns a
nil error, so the result is the plain buffer. -/
def Packet.encode (p : Packet) : List Nat :=
  p.encodeData ++ beBytes 4 (crc32 p.encodeData)

/-- Outcome of `Decode`: a packet, one of the two rejection errors, or an
(impossible) out-of-bounds slice access. -/
inductive DecodeResult where
  | ok (p : Packet)
  | badLength
  | badChecksum
  | panicked
  deriving DecidableEq, Repr

/-- Go slice expression `data[i:j]`: defined only when `i ≤ j ≤ len(data)`. -/
def slice (data : List Nat) (i j : Nat) : Option (List Nat) :=
  if i ≤ j ∧ j ≤ data.length then some ((data.drop i).take (j - i)) else none

/-- Model of `Decode`: reject buffers whose length is not exactly 30
("invalid packet size"), recompute the CRC-32/IEEE of the first 26 octets and
compare it with the big-endian value stored in the last 4
("packet checksum verification failed"), then read out the fields.
Every indexing step is guarded; a failed bound yields `panicked`. -/
def Decode (data : List Nat) : DecodeResult :=
  if data.length ≠ PacketSize then .badLength
  else
    match slice data PacketDataSize PacketSize, slice data 0 PacketDataSize with
    | some csBytes, some dataBytes =>
      if readBE csBytes ≠ crc32 dataBytes then .badChecksum
      else
        match data[0]?, slice data 1 17, slice data 17 25, data[25]? with
        | some v, some uuid, some tsBytes, some sc =>
          .ok ⟨v, uuid, ofUInt64 (readBE tsBytes), sc, readBE csBytes⟩
        | _, _, _, _ => .panicked
    | _, _ => .panicked


theorem slice_eq_some (data : List Nat) (i j : Nat) (h₁ : i ≤ j) (h₂ : j ≤ data.length) :
    slice data i j = some ((data.drop i).take (j - i)) := by
  simp [slice, h₁, h₂]

theorem length_encodeData (p : Packet) (h : p.nodeUUID.length = 16) :
    p.encodeData.length = 26 := by
  simp [Packet.encodeData, h, length_beBytes]

theorem encodeData_lt (p : Packet) (hv : p.version < 256)
    (hu : ∀ b ∈ p.nodeUUID, b < 256) (hs : p.statusCode < 256) :
    ∀ b ∈ p.encodeData, b < 256 := by
  intro b hb
  simp only [Packet.encodeData, List.mem_append, List.mem_singleton] at hb
  rcases hb with ((hb | hb) | hb) | hb
  · exact hb ▸ hv
  · exact hu b hb
  · exact beBytes_lt 8 _ b hb
  · exact hb ▸ hs

theorem length_encode (p : Packet) (h : p.nodeUUID.length = 16) :
    p.encode.length = 30 := by
  simp [Packet.encode, length_encodeData p h, length_beBytes]

theorem encode_take (p : Packet) (h : p.nodeUUID.length = 16) :
    p.encode.take 26 = p.encodeData :=
  List.take_left' (length_encodeData p h)

theorem encode_drop (p : Packet) (h : p.nodeUUID.length = 16) :
    p.encode.drop 26 = beBytes 4 (crc32 p.encodeData) :=
  List.drop_left' (length_encodeData p h)

/-- Claim C1: `encode` always produces a frame of exactly 30 octets; `decode`
fails with the length error on every buffer whose length is not 30; and a
successful decode forces the input length to be 30. -/
theorem claim1_frame_length :
    (∀ p : Packet, p.nodeUUID.length = 16 → p.encode.length = 30) ∧
    (∀ data : List Nat, data.length ≠ 30 → Decode data = .badLength) ∧
    (∀ (data : List Nat) (p : Packet), Decode data = .ok p → data.length = 30) := by
  refine ⟨fun p h => length_encode p h, fun data h => by simp [Decode, PacketSize, h], ?_⟩
  intro data p h
  by_contra hne
  simp [Decode, PacketSize, hne] at h

set_option maxRecDepth 10000 in
theorem claim1_frame_length_witness :
    (Packet.encode ⟨1, [0,0,0,0,0,0,0,0,0,0,0,0,0,0,0,0], 0, 0, 0⟩).length = 30 ∧
    Decode [1, 2, 3] = .badLength ∧
    ([0x01, 0x00, 0x01, 0x02, 0x03, 0x04, 0x05, 0x06, 0x07, 0x08, 0x09, 0x0A, 0x0B, 0x0C,
      0x0D, 0x0E, 0x0F, 0x01, 0x02, 0x03, 0x04, 0x05, 0x06, 0x07, 0x08, 0x01,
      0x44, 0xB2, 0x2E, 0xDF] : List Nat).length = 30 :=
  ⟨claim1_frame_length.1 _ (by decide), claim1_frame_length.2.1 _ (by decide),
    claim1_frame_length.2.2 _
      ⟨1, [0,1,2,3,4,5,6,7,8,9,10,11,12,13,14,15], 72623859790382856, 1, 0x44B22EDF⟩
      (by decide)⟩


/-- Claim C10: `Decode` is total on arbitrary input: every byte list yields a
packet or one of the two rejection errors, and the guarded slice accesses
never fail, because the length check precedes every field access. -/
theorem claim10_decode_total (data : List Nat) :
    Decode data = .badLength ∨ Decode data = .badChecksum ∨
      ∃ p, Decode data = .ok p := by
  by_cases h : data.length = 30
  · have e1 := slice_eq_some data 26 30 (by norm_num) (by omega)
    have e2 := slice_eq_some data 0 26 (by norm_num) (by omega)
    have e3 : data[0]? = some (data.getD 0 0) := by
      rw [List.getD_eq_getElem?_getD]
      cases h0 : data[0]? with
      | none => rw [List.getElem?_eq_none_iff] at h0; omega
      | some v => rfl
    have e4 : data[25]? = some (data.getD 25 0) := by
      rw [List.getD_eq_getElem?_getD]
      cases h0 : data[25]? with
      | none => rw [List.getElem?_eq_none_iff] at h0; omega
      | some v => rfl
    have e5 := slice_eq_some data 1 17 (by norm_num) (by omega)
    have e6 := slice_eq_some data 17 25 (by norm_num) (by omega)
    have hD : Decode data =
        if readBE ((data.drop 26).take 4) ≠ crc32 ((data.drop 0).take 26) then .badChecksum
        else .ok ⟨data.getD 0 0, (data.drop 1).take 16,
          ofUInt64 (readBE ((data.drop 17).take 8)), data.getD 25 0,
          readBE ((data.drop 26).take 4)⟩ := by
      simp only [Decode, PacketSize, PacketDataSize, h, ne_eq, not_true_eq_false, if_false,
        e1, e2, e3, e4, e5, e6]
    by_cases hc : readBE ((data.drop 26).take 4) ≠ crc32 ((data.drop 0).take 26)
    · exact Or.inr (Or.inl (by rw [hD, if_pos hc]))
    · exact Or.inr (Or.inr ⟨_, by rw [hD, if_neg hc]⟩)
  · left
    simp [Decode, PacketSize, h]

set_option maxRecDepth 10000 in
/-- Claim C9 (counterexample): on the spec's S1 inputs, `Encode` does not
produce the spec's expected octets; moreover the spec's expected octets are
internally inconsistent, since their final 4 octets are not the CRC-32/IEEE
of their first 26. -/
theorem claim9_counterexample :
    Packet.encode ⟨1, [0,1,2,3,4,5,6,7,8,9,10,11,12,13,14,15], 72623859790382856, 1, 0⟩ ≠
      [0x01, 0x00, 0x01, 0x02, 0x03, 0x04, 0x05, 0x06, 0x07, 0x08, 0x09, 0x0A, 0x0B, 0x0C,
       0x0D, 0x0E, 0x0F, 0x01, 0x02, 0x03, 0x04, 0x05, 0x06, 0x07, 0x08, 0x01,
       0xC6, 0x1A, 0x9A, 0xB5] ∧
    readBE [0xC6, 0x1A, 0x9A, 0xB5] ≠
      crc32 [0x01, 0x00, 0x01, 0x02, 0x03, 0x04, 0x05, 0x06, 0x07, 0x08, 0x09, 0x0A, 0x0B,
        0x0C, 0x0D, 0x0E, 0x0F, 0x01, 0x02, 0x03, 0x04, 0x05, 0x06, 0x07, 0x08, 0x01] := by
  decide

set_option maxRecDepth 10000 in
/-- Claim C9 (amended): encoding version 1, node id 0x00..0x0F, timestamp
0x0102030405060708, severity 1 produces exactly the 30 octets
`01 00 01 02 03 04 05 06 07 08 09 0A 0B 0C 0D 0E 0F 01 02 03 04 05 06 07 08
01 44 B2 2E DF`, whose final 4 octets equal the CRC-32/IEEE of the preceding
26 (`0x44B22EDF`, not the spec's `0xC61A9AB5`). -/
theorem claim9_golden_frame :
    Packet.encode ⟨1, [0,1,2,3,4,5,6,7,8,9,10,11,12,13,14,15], 72623859790382856, 1, 0⟩ =
      [0x01, 0x00, 0x01, 0x02, 0x03, 0x04, 0x05, 0x06, 0x07, 0x08, 0x09, 0x0A, 0x0B, 0x0C,
       0x0D, 0x0E, 0x0F, 0x01, 0x02, 0x03, 0x04, 0x05, 0x06, 0x07, 0x08, 0x01,
       0x44, 0xB2, 0x2E, 0xDF] ∧
    readBE [0x44, 0xB2, 0x2E, 0xDF] =
      crc32 [0x01, 0x00, 0x01, 0x02, 0x03, 0x04, 0x05, 0x06, 0x07, 0x08, 0x09, 0x0A, 0x0B,
        0x0C, 0x0D, 0x0E, 0x0F, 0x01, 0x02, 0x03, 0x04, 0x05, 0x06, 0x07, 0x08, 0x01] := by
  decide

/-- Structure of an encoded frame as nested appends rooted at the version
octet. -/
theorem encode_eq_cons (p : Packet) :
    p.encode = p.version :: (p.nodeUUID ++ (beBytes 8 (toUInt64 p.timestamp) ++
      ([p.statusCode] ++ beBytes 4 (crc32 p.encodeData)))) := by
  simp [Packet.encode, Packet.encodeData, List.append_assoc]

theorem decode_encode (p : Packet) (hu : p.nodeUUID.length = 16)
    (hub : ∀ b ∈ p.nodeUUID, b < 256) (hv : p.version < 256) (hsc : p.statusCode < 256)
    (hts₁ : -(2 ^ 63) ≤ p.timestamp) (hts₂ : p.timestamp < 2 ^ 63) :
    Decode p.encode = .ok ⟨p.version, p.nodeUUID, p.timestamp, p.statusCode,
      crc32 p.encodeData⟩ := by
  have hlen : p.encode.length = 30 := length_encode p hu
  have hdlt : ∀ b ∈ p.encodeData, b < 256 := encodeData_lt p hv hub hsc
  have hcrc : crc32 p.encodeData < 2 ^ 32 := crc32_lt _ hdlt
  have hcs : readBE (beBytes 4 (crc32 p.encodeData)) = crc32 p.encodeData :=
    readBE_beBytes 4 _ (by norm_num at hcrc ⊢; omega)
  have e1 : slice p.encode 26 30 = some (beBytes 4 (crc32 p.encodeData)) := by
    rw [slice_eq_some _ _ _ (by norm_num) (by omega), encode_drop p hu]
    rw [show (30 : Nat) - 26 = 4 from rfl,
      List.take_of_length_le (le_of_eq (length_beBytes 4 _))]
  have e2 : slice p.encode 0 26 = some p.encodeData := by
    rw [slice_eq_some _ _ _ (by norm_num) (by omega), List.drop_zero]
    exact congrArg some (encode_take p hu)
  have e3 : p.encode[0]? = some p.version := by
    rw [encode_eq_cons]
    exact List.getElem?_cons_zero
  have e5 : slice p.encode 1 17 = some p.nodeUUID := by
    rw [slice_eq_some _ _ _ (by norm_num) (by omega), encode_eq_cons]
    rw [show (17 : Nat) - 1 = 16 from rfl, List.drop_succ_cons, List.drop_zero]
    exact congrArg some (List.take_left' hu)
  have e6 : slice p.encode 17 25 = some (beBytes 8 (toUInt64 p.timestamp)) := by
    rw [slice_eq_some _ _ _ (by norm_num) (by omega), encode_eq_cons]
    rw [show (17 : Nat) = 16 + 1 from rfl, List.drop_succ_cons,
      show (16 : Nat) = p.nodeUUID.length + 0 from by omega, List.drop_append, List.drop_zero]
    rw [show (25 : Nat) - (p.nodeUUID.length + 0 + 1) = 8 from by omega]
    exact congrArg some (List.take_left' (length_beBytes 8 _))
  have e4 : p.encode[25]? = some p.statusCode := by
    have h8 := @List.drop_append Nat (beBytes 8 (toUInt64 p.timestamp))
      ([p.statusCode] ++ beBytes 4 (crc32 p.encodeData)) 0
    rw [length_beBytes] at h8
    simp only [Nat.add_zero, List.drop_zero] at h8
    have hdrop : List.drop 25 p.encode = [p.statusCode] ++ beBytes 4 (crc32 p.encodeData) := by
      rw [encode_eq_cons, show (25 : Nat) = 24 + 1 from rfl, List.drop_succ_cons,
        show (24 : Nat) = p.nodeUUID.length + 8 from by omega, List.drop_append, h8]
    have h250 := (List.getElem?_drop p.encode 25 0).symm
    simp only [Nat.add_zero] at h250
    rw [h250, hdrop, List.singleton_append]
    exact List.getElem?_cons_zero
  have hts : ofUInt64 (readBE (beBytes 8 (toUInt64 p.timestamp))) = p.timestamp := by
    rw [readBE_beBytes 8 _ (by have := toUInt64_lt p.timestamp; norm_num at this ⊢; omega)]
    exact ofUInt64_toUInt64 _ hts₁ hts₂
  simp only [Decode, PacketSize, PacketDataSize, hlen, ne_eq, not_true_eq_false, if_false,
    e1, e2, e3, e4, e5, e6, hcs, not_not]
  simp [hts]

/-- Claim C6: for every version-1 frame with a 16-octet node id, an in-range
signed 64-bit timestamp, and severity in {0,1,2}, decoding the encoding
succeeds and returns the same version, node id, timestamp and severity. -/
theorem claim6_roundtrip (uuid : List Nat) (ts : Int) (sev : Nat)
    (hu : uuid.length = 16) (hub : ∀ b ∈ uuid, b < 256)
    (hts₁ : -(2 ^ 63) ≤ ts) (hts₂ : ts < 2 ^ 63) (hsev : sev < 3) :
    ∃ q, Decode (Packet.encode ⟨1, uuid, ts, sev, 0⟩) = .ok q ∧
      q.version = 1 ∧ q.nodeUUID = uuid ∧ q.timestamp = ts ∧ q.statusCode = sev :=
  ⟨_, decode_encode ⟨1, uuid, ts, sev, 0⟩ hu hub (by norm_num)
    (by show sev < 256; omega) hts₁ hts₂, rfl, rfl, rfl, rfl⟩

set_option maxRecDepth 10000 in
theorem claim6_roundtrip_witness :
    ∃ q, Decode (Packet.encode ⟨1, [0,1,2,3,4,5,6,7,8,9,10,11,12,13,14,15], -5, 2, 0⟩) =
        .ok q ∧ q.version = 1 ∧ q.nodeUUID = [0,1,2,3,4,5,6,7,8,9,10,11,12,13,14,15] ∧
      q.timestamp = -5 ∧ q.statusCode = 2 :=
  claim6_roundtrip [0,1,2,3,4,5,6,7,8,9,10,11,12,13,14,15] (-5) 2 (by decide) (by decide)
    (by decide) (by decide) (by decide)

/-- Flip bit `k` of octet `j` of a buffer. -/
def flipBit (data : List Nat) (j k : Nat) : List Nat :=
  data.set j (data.getD j 0 ^^^ 2 ^ k)

theorem length_flipBit (data : List Nat) (j k : Nat) :
    (flipBit data j k).length = data.length := List.length_set ..

theorem flipBit_append_left (l₁ l₂ : List Nat) (j k : Nat) (hj : j < l₁.length) :
    flipBit (l₁ ++ l₂) j k = flipBit l₁ j k ++ l₂ := by
  unfold flipBit
  rw [List.set_append, if_pos hj, List.getD_eq_getElem?_getD, List.getElem?_append_left hj,
    ← List.getD_eq_getElem?_getD]

theorem flipBit_append_right (l₁ l₂ : List Nat) (j k : Nat) (hj : l₁.length ≤ j) :
    flipBit (l₁ ++ l₂) j k = l₁ ++ flipBit (l₂) (j - l₁.length) k := by
  unfold flipBit
  rw [List.set_append, if_neg (by omega), List.getD_eq_getElem?_getD,
    List.getElem?_append_right hj, ← List.getD_eq_getElem?_getD]

theorem zipWith_xor_replicate_zero (l : List Nat) :
    List.zipWith (· ^^^ ·) l (List.replicate l.length 0) = l := by
  induction l with
  | nil => rfl
  | cons a l ih => simp [List.replicate_succ, ih]

theorem flipBit_eq_zipWith (l : List Nat) (j x : Nat) (hj : j < l.length) :
    l.set j (l.getD j 0 ^^^ x) =
      List.zipWith (· ^^^ ·) l ((List.replicate l.length 0).set j x) := by
  induction l generalizing j with
  | nil => simp at hj
  | cons a l ih =>
    cases j with
    | zero =>
      simp [List.replicate_succ, zipWith_xor_replicate_zero]
    | succ j =>
      simp only [List.length_cons, List.replicate_succ, List.set_cons_succ,
        List.getD_cons_succ, List.zipWith_cons_cons, Nat.xor_zero]
      exact congrArg _ (ih j (by simp only [List.length_cons] at hj; omega))

/-- Effect of a GF(2) perturbation on the checksum: xor by the syndrome of
the error vector. -/
theorem crc32_zipWith_xor (l e : List Nat) (h : e.length = l.length) :
    crc32 (List.zipWith (· ^^^ ·) l e) = crc32 l ^^^ crcLoop 0 e := by
  unfold crc32
  rw [show (0xFFFFFFFF : Nat) = 0xFFFFFFFF ^^^ 0 from rfl]
  rw [crcLoop_xor l e _ _ h.symm]
  simp only [Nat.xor_zero]
  simp [Nat.xor_assoc, Nat.xor_comm, xor_left_comm]

set_option maxRecDepth 10000 in
/-- No single-bit error vector has syndrome zero. -/
theorem syndrome_ne_zero : ∀ j, j < 26 → ∀ k, k < 8 →
    crcLoop 0 ((List.replicate 26 0).set j (2 ^ k)) ≠ 0 := by decide

theorem exists_four (l : List Nat) (h : l.length = 4) :
    ∃ a b c d, l = [a, b, c, d] := by
  match l, h with
  | [a, b, c, d], _ => exact ⟨a, b, c, d, rfl⟩

theorem readBE_flipBit_ne (c0 c1 c2 c3 m k : Nat) (hm : m < 4) (hk : k < 8)
    (h0 : c0 < 256) (h1 : c1 < 256) (h2 : c2 < 256) (h3 : c3 < 256) :
    readBE (flipBit [c0, c1, c2, c3] m k) ≠ readBE [c0, c1, c2, c3] := by
  have hpk : (2 : Nat) ^ k < 256 := by
    calc (2 : Nat) ^ k < 2 ^ 8 := Nat.pow_lt_pow_right (by norm_num) hk
    _ = 256 := by norm_num
  have hxne : ∀ c : Nat, c ^^^ 2 ^ k = c → False := by
    intro c hEq
    have h2k := Nat.xor_cancel_left c (2 ^ k)
    rw [hEq, Nat.xor_self] at h2k
    exact absurd h2k.symm (Nat.two_pow_pos k).ne'
  have hxlt : ∀ c : Nat, c < 256 → c ^^^ 2 ^ k < 256 := by
    intro c hc
    have h8 : c ^^^ 2 ^ k < 2 ^ 8 :=
      Nat.xor_lt_two_pow (by norm_num; omega) (by norm_num; omega)
    norm_num at h8; omega
  interval_cases m <;>
    simp only [flipBit, List.set_cons_zero, List.set_cons_succ, List.getD_cons_zero,
      List.getD_cons_succ, readBE, List.foldl_cons, List.foldl_nil] <;>
  · intro hEq
    first
    | exact hxne c0 (by have hv := hxlt c0 h0; omega)
    | exact hxne c1 (by have hv := hxlt c1 h1; omega)
    | exact hxne c2 (by have hv := hxlt c2 h2; omega)
    | exact hxne c3 (by have hv := hxlt c3 h3; omega)

theorem decode_checksum_mismatch (data : List Nat) (h30 : data.length = 30)
    (hne : readBE (data.drop 26) ≠ crc32 (data.take 26)) : Decode data = .badChecksum := by
  have e1 := slice_eq_some data 26 30 (by norm_num) (by omega)
  have e2 := slice_eq_some data 0 26 (by norm_num) (by omega)
  have ht : (data.drop 26).take 4 = data.drop 26 :=
    List.take_of_length_le (by rw [List.length_drop]; omega)
  simp only [Decode, PacketSize, PacketDataSize, h30, ne_eq, not_true_eq_false, if_false,
    e1, e2, List.drop_zero, show (30 : Nat) - 26 = 4 from rfl, ht]
  rw [if_pos hne]

/-- Claim C2: a 30-octet buffer whose trailing 4 octets are not the
CRC-32/IEEE of the first 26 is rejected as a checksum failure; consequently
flipping any single bit of any octet of a validly encoded frame makes
decoding fail with the checksum error or the length error. -/
theorem claim2_checksum_detection :
    (∀ data : List Nat, data.length = 30 →
      readBE (data.drop 26) ≠ crc32 (data.take 26) → Decode data = .badChecksum) ∧
    (∀ (p : Packet) (j k : Nat), p.nodeUUID.length = 16 → (∀ b ∈ p.nodeUUID, b < 256) →
      p.version < 256 → p.statusCode < 256 → j < 30 → k < 8 →
      Decode (flipBit p.encode j k) = .badChecksum ∨
        Decode (flipBit p.encode j k) = .badLength) := by
  refine ⟨decode_checksum_mismatch, ?_⟩
  intro p j k hu hub hv hsc hj30 hk
  left
  have hd26 : p.encodeData.length = 26 := length_encodeData p hu
  have hdlt : ∀ b ∈ p.encodeData, b < 256 := encodeData_lt p hv hub hsc
  have hcrc : crc32 p.encodeData < 2 ^ 32 := crc32_lt _ hdlt
  have hcs : readBE (beBytes 4 (crc32 p.encodeData)) = crc32 p.encodeData :=
    readBE_beBytes 4 _ (by norm_num at hcrc ⊢; omega)
  have hencdef : p.encode = p.encodeData ++ beBytes 4 (crc32 p.encodeData) := rfl
  have hlen : (flipBit p.encode j k).length = 30 := by
    rw [length_flipBit, length_encode p hu]
  by_cases hj : j < 26
  · have hsplit : flipBit p.encode j k =
        flipBit p.encodeData j k ++ beBytes 4 (crc32 p.encodeData) := by
      rw [hencdef]
      exact flipBit_append_left _ _ _ _ (by omega)
    have hfliplen : (flipBit p.encodeData j k).length = 26 := by
      rw [length_flipBit, hd26]
    have htake : (flipBit p.encode j k).take 26 = flipBit p.encodeData j k := by
      rw [hsplit]
      exact List.take_left' hfliplen
    have hdrop : (flipBit p.encode j k).drop 26 = beBytes 4 (crc32 p.encodeData) := by
      rw [hsplit]
      exact List.drop_left' hfliplen
    have hzip : flipBit p.encodeData j k =
        List.zipWith (· ^^^ ·) p.encodeData ((List.replicate 26 0).set j (2 ^ k)) := by
      have h := flipBit_eq_zipWith p.encodeData j (2 ^ k) (by omega)
      rw [hd26] at h
      exact h
    have hcrcne : crc32 (flipBit p.encodeData j k) ≠ crc32 p.encodeData := by
      rw [hzip, crc32_zipWith_xor _ _ (by simp [hd26])]
      intro hEq
      have hcl := Nat.xor_cancel_left (crc32 p.encodeData)
        (crcLoop 0 ((List.replicate 26 0).set j (2 ^ k)))
      rw [hEq, Nat.xor_self] at hcl
      exact syndrome_ne_zero j hj k hk hcl.symm
    apply decode_checksum_mismatch _ hlen
    rw [hdrop, htake, hcs]
    exact fun hcontra => hcrcne hcontra.symm
  · have hsplit : flipBit p.encode j k =
        p.encodeData ++ flipBit (beBytes 4 (crc32 p.encodeData)) (j - 26) k := by
      rw [hencdef]
      have h := flipBit_append_right p.encodeData (beBytes 4 (crc32 p.encodeData)) j k
        (by omega)
      rw [hd26] at h
      exact h
    have htake : (flipBit p.encode j k).take 26 = p.encodeData := by
      rw [hsplit]
      exact List.take_left' hd26
    have hdrop : (flipBit p.encode j k).drop 26 =
        flipBit (beBytes 4 (crc32 p.encodeData)) (j - 26) k := by
      rw [hsplit]
      exact List.drop_left' hd26
    obtain ⟨x0, x1, x2, x3, h4⟩ := exists_four (beBytes 4 (crc32 p.encodeData))
      (length_beBytes 4 _)
    have hblt := beBytes_lt 4 (crc32 p.encodeData)
    rw [h4] at hblt
    have hne := readBE_flipBit_ne x0 x1 x2 x3 (j - 26) k (by omega) hk
      (hblt x0 (by simp)) (hblt x1 (by simp)) (hblt x2 (by simp)) (hblt x3 (by simp))
    apply decode_checksum_mismatch _ hlen
    rw [hdrop, htake, h4, ← hcs, h4]
    exact hne

set_option maxRecDepth 10000 in
theorem claim2_checksum_detection_witness :
    Decode (List.replicate 30 0) = .badChecksum ∧
    (Decode (flipBit (Packet.encode ⟨1, [0,1,2,3,4,5,6,7,8,9,10,11,12,13,14,15], 7, 1, 0⟩)
        0 0) = .badChecksum ∨
      Decode (flipBit (Packet.encode ⟨1, [0,1,2,3,4,5,6,7,8,9,10,11,12,13,14,15], 7, 1, 0⟩)
        0 0) = .badLength) :=
  ⟨claim2_checksum_detection.1 _ (by decide) (by decide),
    claim2_checksum_detection.2 _ 0 0 (by decide) (by decide) (by decide) (by decide)
      (by decide) (by decide)⟩

/-! ## Severity classifier (internal/telemetry)

Metric and threshold values are Go `float64` percentages; the classifier
only compares them, so they are modelled as rationals, on which `≥` agrees
with the IEEE comparison for the finite values the sampler produces. -/

structure Metrics where
  CPUPercent : ℚ
  RAMPercent : ℚ
  DiskPercent : ℚ
  deriving DecidableEq, Repr

structure Thresholds where
  CPUWarn : ℚ
  CPUCritical : ℚ
  RAMWarn : ℚ
  RAMCritical : ℚ
  DiskWarn : ℚ
  DiskCritical : ℚ
  deriving DecidableEq, Repr

/-- Model of `DefaultThresholds`. -/
def DefaultThresholds : Thresholds :=
  { CPUWarn := 70, CPUCritical := 90, RAMWarn := 80, RAMCritical := 95,
    DiskWarn := 85, DiskCritical := 95 }

abbrev StatusCode := Nat

def StatusOK : StatusCode := 0
def StatusWarn : StatusCode := 1
def StatusCritical : StatusCode := 2

/-- Model of `CalculateStatus`: critical conditions first, then warning conditions,
else OK; every comparison is `>=`. A pure function of its two arguments. -/
def CalculateStatus (metrics : Metrics) (thresholds : Thresholds) : StatusCode :=
  if metrics.CPUPercent ≥ thresholds.CPUCritical ∨
      metrics.RAMPercent ≥ thresholds.RAMCritical ∨
      metrics.DiskPercent ≥ thresholds.DiskCritical then
    StatusCritical
  else if metrics.CPUPercent ≥ thresholds.CPUWarn ∨
      metrics.RAMPercent ≥ thresholds.RAMWarn ∨
      metrics.DiskPercent ≥ thresholds.DiskWarn then
    StatusWarn
  else
    StatusOK

/-- Claim C5: the classifier returns CRITICAL exactly when some metric reaches
its critical threshold (inclusive comparison), WARN exactly when no critical
threshold is reached but some warn threshold is, and OK otherwise; CRITICAL
takes priority over WARN, and the result is a function of the two arguments
alone. -/
theorem claim5_classifier (m : Metrics) (t : Thresholds) :
    (CalculateStatus m t = StatusCritical ↔
      (m.CPUPercent ≥ t.CPUCritical ∨ m.RAMPercent ≥ t.RAMCritical ∨
        m.DiskPercent ≥ t.DiskCritical)) ∧
    (CalculateStatus m t = StatusWarn ↔
      (¬(m.CPUPercent ≥ t.CPUCritical ∨ m.RAMPercent ≥ t.RAMCritical ∨
          m.DiskPercent ≥ t.DiskCritical) ∧
        (m.CPUPercent ≥ t.CPUWarn ∨ m.RAMPercent ≥ t.RAMWarn ∨
          m.DiskPercent ≥ t.DiskWarn))) ∧
    (CalculateStatus m t = StatusOK ↔
      (¬(m.CPUPercent ≥ t.CPUCritical ∨ m.RAMPercent ≥ t.RAMCritical ∨
          m.DiskPercent ≥ t.DiskCritical) ∧
        ¬(m.CPUPercent ≥ t.CPUWarn ∨ m.RAMPercent ≥ t.RAMWarn ∨
          m.DiskPercent ≥ t.DiskWarn))) := by
  unfold CalculateStatus StatusOK StatusWarn StatusCritical
  split_ifs with hc hw <;> simp_all

/-! ## Peer registry (internal/registry, sharded revision)

The monitor is a 16-way sharded map from the textual wire address (modelled
as its byte string) to a peer record. Shard selection is the 32-bit FNV-1a
hash of the address masked with 15. Each Go `map[string]NodeInfo` is
modelled extensionally as a function to `Option NodeInfo`; `time.Now()`
readings are explicit `Int` parameters. -/

abbrev Addr := List Nat

def numShards : Nat := 16

structure NodeInfo where
  LastSeen : Int
  Address : Addr
  CPUPercent : ℚ
  RAMPercent : ℚ
  DiskPercent : ℚ
  StatusCode : Nat
  PacketTime : Int
  RTT : Int
  deriving DecidableEq, Repr

/-- The Go zero value of `NodeInfo`. -/
def NodeInfo.zero : NodeInfo := ⟨0, [], 0, 0, 0, 0, 0, 0⟩

/-- The 32-bit FNV-1a hash of the address bytes (hash/fnv `New32a` + `Write`). -/
def fnv32a (addr : Addr) : Nat :=
  addr.foldl (fun h b => ((h ^^^ b) * 16777619) % 2 ^ 32) 2166136261

/-- Shard selection in `getShard`: `h.Sum32() & (numShards - 1)`. -/
def shardIndex (addr : Addr) : Fin 16 :=
  ⟨fnv32a addr &&& 15, by have := @Nat.and_le_right (fnv32a addr) 15; omega⟩

structure Monitor where
  shards : Fin 16 → Addr → Option NodeInfo

/-- Model of `NewMonitor`: all shards empty. -/
def NewMonitor : Monitor := ⟨fun _ _ => none⟩

/-- Store `info` under `addr` in `addr`'s shard. -/
def Monitor.setInShard (m : Monitor) (addr : Addr) (info : NodeInfo) : Monitor :=
  ⟨fun i =>
    if i = shardIndex addr then fun a => if a = addr then some info else m.shards i a
    else m.shards i⟩

/-- Model of `GetNodeInfo`: look `addr` up in its shard. -/
def Monitor.GetNodeInfo (m : Monitor) (addr : Addr) : Option NodeInfo :=
  m.shards (shardIndex addr) addr

/-- Model of `Update`: store a fresh record containing only `LastSeen := now` and the
address; every other field is the Go zero value. -/
def Monitor.Update (m : Monitor) (addr : Addr) (now : Int) : Monitor :=
  m.setInShard addr { NodeInfo.zero with LastSeen := now, Address := addr }

/-- Model of `UpdateWithStatus`: read the current record (zero value if absent), set
`LastSeen` to the receiver's local clock `now`, the address, the status code
and the sender's packet timestamp, and store it back. The metric fields of an
existing record are preserved. -/
def Monitor.UpdateWithStatus (m : Monitor) (addr : Addr) (statusCode : Nat)
    (packetTimestamp : Int) (now : Int) : Monitor :=
  let info := (m.GetNodeInfo addr).getD NodeInfo.zero
  m.setInShard addr { info with
    LastSeen := now, Address := addr, StatusCode := statusCode,
    PacketTime := packetTimestamp }

/-- Model of `UpdateWithTelemetry`: store a fresh record with `LastSeen := now`, the
metrics and the status code. -/
def Monitor.UpdateWithTelemetry (m : Monitor) (addr : Addr) (cpu ram disk : ℚ)
    (statusCode : Nat) (now : Int) : Monitor :=
  m.setInShard addr
    { LastSeen := now, Address := addr, CPUPercent := cpu, RAMPercent := ram,
      DiskPercent := disk, StatusCode := statusCode, PacketTime := 0, RTT := 0 }

/-- One reaper pass over a single shard: delete every record with
`time.Since(info.LastSeen) > timeout`. -/
def reapShard (nodes : Addr → Option NodeInfo) (now timeout : Int) :
    Addr → Option NodeInfo :=
  fun a =>
    match nodes a with
    | some info => if now - info.LastSeen > timeout then none else some info
    | none => none

/-- One tick of `StartReaper`: sweep every shard in turn. -/
def Monitor.ReaperPass (m : Monitor) (now timeout : Int) : Monitor :=
  ⟨fun i => reapShard (m.shards i) now timeout⟩

theorem getNodeInfo_setInShard_self (m : Monitor) (addr : Addr) (info : NodeInfo) :
    (m.setInShard addr info).GetNodeInfo addr = some info := by
  simp [Monitor.setInShard, Monitor.GetNodeInfo]

theorem getNodeInfo_setInShard_other (m : Monitor) (addr addr' : Addr) (info : NodeInfo)
    (h : addr' ≠ addr) :
    (m.setInShard addr info).GetNodeInfo addr' = m.GetNodeInfo addr' := by
  unfold Monitor.setInShard Monitor.GetNodeInfo
  by_cases hi : shardIndex addr' = shardIndex addr <;> simp [hi, h]

/-- Claim C3: `UpdateWithStatus` always stores the receiver's local clock
reading `now` as `LastSeen`, for every value of the sender timestamp, and the
stored `LastSeen` does not depend on the sender timestamp at all. -/
theorem claim3_lastSeen_local_clock (m : Monitor) (addr : Addr) (sc : Nat)
    (ts now : Int) :
    ((m.UpdateWithStatus addr sc ts now).GetNodeInfo addr).map NodeInfo.LastSeen =
      some now ∧
    ∀ ts' : Int,
      ((m.UpdateWithStatus addr sc ts now).GetNodeInfo addr).map NodeInfo.LastSeen =
        ((m.UpdateWithStatus addr sc ts' now).GetNodeInfo addr).map NodeInfo.LastSeen := by
  constructor
  · rw [Monitor.UpdateWithStatus, getNodeInfo_setInShard_self]
    rfl
  · intro ts'
    rw [Monitor.UpdateWithStatus, Monitor.UpdateWithStatus,
      getNodeInfo_setInShard_self, getNodeInfo_setInShard_self]
    rfl

/-- Claim C7: after a reaper pass at clock `now` with the given timeout, a
record survives under an address exactly when it was present before the pass
and its age `now - LastSeen` does not exceed the timeout; in particular every
entry with `now - LastSeen > timeout` has been deleted and no surviving
record is older than `now - timeout`. -/
theorem claim7_reaper_completeness (m : Monitor) (now timeout : Int) (addr : Addr) :
    (∀ info, (m.ReaperPass now timeout).GetNodeInfo addr = some info →
      ¬(now - info.LastSeen > timeout)) ∧
    (∀ info, m.GetNodeInfo addr = some info → now - info.LastSeen > timeout →
      (m.ReaperPass now timeout).GetNodeInfo addr = none) := by
  have hre : (m.ReaperPass now timeout).GetNodeInfo addr =
      match m.GetNodeInfo addr with
      | some info => if now - info.LastSeen > timeout then none else some info
      | none => none := rfl
  constructor
  · intro info h
    rw [hre] at h
    cases hm : m.GetNodeInfo addr with
    | none => rw [hm] at h; simp at h
    | some info' =>
      rw [hm] at h
      dsimp only at h
      by_cases hage : now - info'.LastSeen > timeout
      · rw [if_pos hage] at h; simp at h
      · rw [if_neg hage] at h
        injection h with h'
        rw [← h']
        exact hage
  · intro info h hage
    rw [hre, h]
    simp [hage]

theorem claim7_reaper_completeness_witness :
    ¬((10 : Int) - 5 > 100) ∧
    ((NewMonitor.Update [97] 5).ReaperPass 200 100).GetNodeInfo [97] = none :=
  ⟨(claim7_reaper_completeness (NewMonitor.Update [97] 5) 10 100 [97]).1
      ⟨5, [97], 0, 0, 0, 0, 0, 0⟩ (by decide),
    (claim7_reaper_completeness (NewMonitor.Update [97] 5) 200 100 [97]).2
      ⟨5, [97], 0, 0, 0, 0, 0, 0⟩ (by decide) (by decide)⟩

/-- Claim C8 (counterexample): `Update` on an address whose record holds
severity 2 and CPU 50 leaves a record with severity 0 and CPU 0: the fields
are not preserved. -/
theorem claim8_counterexample :
    ((NewMonitor.UpdateWithTelemetry [97] 50 60 70 2 100).GetNodeInfo [97]).map
        NodeInfo.StatusCode = some 2 ∧
    (((NewMonitor.UpdateWithTelemetry [97] 50 60 70 2 100).Update [97] 200).GetNodeInfo
        [97]).map NodeInfo.StatusCode = some 0 ∧
    (((NewMonitor.UpdateWithTelemetry [97] 50 60 70 2 100).Update [97] 200).GetNodeInfo
        [97]).map NodeInfo.CPUPercent = some 0 := by
  decide

/-- Claim C8 (amended): `Update` refreshes `LastSeen` to the local clock but
stores a whole fresh record: the severity and the cpu, ram, disk metrics are
reset to the Go zero value rather than preserved. -/
theorem claim8_update_overwrites (m : Monitor) (addr : Addr) (now : Int) :
    (m.Update addr now).GetNodeInfo addr = some ⟨now, addr, 0, 0, 0, 0, 0, 0⟩ :=
  getNodeInfo_setInShard_self ..

/-! ## Update sequences (for the monotone last-seen invariant)

An operation records the update kind, its arguments, and the local clock
reading `time.Now()` returned during that call. -/

inductive Op where
  | seen (addr : Addr) (now : Int)
  | status (addr : Addr) (statusCode : Nat) (packetTimestamp : Int) (now : Int)
  | telemetry (addr : Addr) (cpu ram disk : ℚ) (statusCode : Nat) (now : Int)

/-- The address an operation targets. -/
def Op.addr : Op → Addr
  | .seen a _ => a
  | .status a _ _ _ => a
  | .telemetry a _ _ _ _ _ => a

/-- The local clock reading observed by an operation. -/
def Op.time : Op → Int
  | .seen _ now => now
  | .status _ _ _ now => now
  | .telemetry _ _ _ _ _ now => now

/-- Execute one update operation on the monitor. -/
def Op.apply (m : Monitor) : Op → Monitor
  | .seen a now => m.Update a now
  | .status a sc ts now => m.UpdateWithStatus a sc ts now
  | .telemetry a c r d sc now => m.UpdateWithTelemetry a c r d sc now

/-- Execute a sequence of update operations in order. -/
def runOps (m : Monitor) (ops : List Op) : Monitor := ops.foldl Op.apply m

/-- All stored history for `addr` is no newer than clock value `t`. -/
def BoundedAt (m : Monitor) (addr : Addr) (t : Int) : Prop :=
  ∀ info, m.GetNodeInfo addr = some info → info.LastSeen ≤ t

theorem apply_getNodeInfo_self (o : Op) (m : Monitor) (addr : Addr) (h : o.addr = addr) :
    ∃ info, (o.apply m).GetNodeInfo addr = some info ∧ info.LastSeen = o.time := by
  subst h
  cases o with
  | seen a now =>
    exact ⟨_, getNodeInfo_setInShard_self .., rfl⟩
  | status a sc ts now =>
    exact ⟨_, getNodeInfo_setInShard_self .., rfl⟩
  | telemetry a c r d sc now =>
    exact ⟨_, getNodeInfo_setInShard_self .., rfl⟩

theorem apply_getNodeInfo_other (o : Op) (m : Monitor) (addr : Addr) (h : o.addr ≠ addr) :
    (o.apply m).GetNodeInfo addr = m.GetNodeInfo addr := by
  cases o with
  | seen a now =>
    exact getNodeInfo_setInShard_other _ _ _ _ (fun hc => h hc.symm)
  | status a sc ts now =>
    exact getNodeInfo_setInShard_other _ _ _ _ (fun hc => h hc.symm)
  | telemetry a c r d sc now =>
    exact getNodeInfo_setInShard_other _ _ _ _ (fun hc => h hc.symm)

/-- Claim C4: along any sequence of `Update` / `UpdateWithStatus` /
`UpdateWithTelemetry` calls, in any order with any arguments, the stored
`LastSeen` of any fixed address never decreases, provided the local clock
readings are non-decreasing and no stored record postdates the starting
clock. -/
theorem claim4_monotone_lastSeen (ops : List Op) (m : Monitor) (t : Int) (addr : Addr)
    (a b : NodeInfo) (hB : BoundedAt m addr t)
    (hchain : List.Chain (· ≤ ·) t (ops.map Op.time))
    (ha : m.GetNodeInfo addr = some a) (hb : (runOps m ops).GetNodeInfo addr = some b) :
    a.LastSeen ≤ b.LastSeen := by
  induction ops generalizing m t a with
  | nil =>
    rw [runOps, List.foldl_nil, ha] at hb
    injection hb with hb'
    rw [hb']
  | cons o rest ih =>
    rw [List.map_cons, List.chain_cons] at hchain
    obtain ⟨hto, hchain'⟩ := hchain
    rw [runOps, List.foldl_cons] at hb
    by_cases hoa : o.addr = addr
    · obtain ⟨c, hc, hct⟩ := apply_getNodeInfo_self o m addr hoa
      have h1 : a.LastSeen ≤ c.LastSeen := by
        have := hB a ha
        omega
      have hB' : BoundedAt (o.apply m) addr o.time := by
        intro info hi
        rw [hc] at hi
        injection hi with hi'
        rw [← hi']
        omega
      exact le_trans h1 (ih (o.apply m) o.time c hB' hchain' hc hb)
    · have hkeep := apply_getNodeInfo_other o m addr hoa
      have hB' : BoundedAt (o.apply m) addr o.time := by
        intro info hi
        rw [hkeep] at hi
        exact le_trans (hB info hi) hto
      exact ih (o.apply m) o.time a hB' hchain' (by rw [hkeep]; exact ha) hb

theorem claim4_monotone_lastSeen_witness : (1 : Int) ≤ 5 :=
  claim4_monotone_lastSeen [Op.seen [97] 5] (NewMonitor.Update [97] 1) 1 [97]
    ⟨1, [97], 0, 0, 0, 0, 0, 0⟩ ⟨5, [97], 0, 0, 0, 0, 0, 0⟩
    (fun info hi => by
      rw [show (NewMonitor.Update [97] 1).GetNodeInfo [97] =
        some ⟨1, [97], 0, 0, 0, 0, 0, 0⟩ from by decide] at hi
      injection hi with hi'
      rw [← hi'])
    (List.Chain.cons (by decide) List.Chain.nil) (by decide) (by decide)

end PulseCheck
